import Mathlib

/-!
Shallow embedding of the d-scope photo-set store (src/photo_set.rs, src/errors.rs).

Rust strings are modelled as their UTF-8 byte sequences (List Nat, each < 256):
String::len is the byte length, and the slice name[4..8] is a byte-range slice
that aborts when index 4 or 8 is not a character boundary.  SystemTime is
modelled as an abstract Nat tick, f32 fields as opaque bit patterns (Nat);
no claim computes on either.  The image decoder, the JSON codec and the
filesystem are external collaborators and enter as explicit parameters.
-/

instance {ε α : Type} [DecidableEq ε] [DecidableEq α] : DecidableEq (Except ε α) :=
  fun a b =>
    match a, b with
    | .ok x, .ok y =>
      if h : x = y then isTrue (by rw [h])
      else isFalse (fun c => h (by cases c; rfl))
    | .error x, .error y =>
      if h : x = y then isTrue (by rw [h])
      else isFalse (fun c => h (by cases c; rfl))
    | .ok _, .error _ => isFalse (fun c => by cases c)
    | .error _, .ok _ => isFalse (fun c => by cases c)

/-- Bytes of "PICT" (the photo file name constant PHOTO_FILE_NAME_PREFIX). -/
def pictB : List Nat := [80, 73, 67, 84]

/-- Bytes of ".jpg" (the photo file name constant PHOTO_FILE_NAME_SUFFIX). -/
def jpgB : List Nat := [46, 106, 112, 103]

/-- Bytewise model of u8::to_ascii_uppercase. -/
def asciiUpper (b : Nat) : Nat := if 97 ≤ b ∧ b ≤ 122 then b - 32 else b

/-- Bytewise model of u8::to_ascii_lowercase. -/
def asciiLower (b : Nat) : Nat := if 65 ≤ b ∧ b ≤ 90 then b + 32 else b

/-- Decimal digit value of an ASCII byte, as used by usize parsing. -/
def digitVal (b : Nat) : Option Nat :=
  if 48 ≤ b ∧ b ≤ 57 then some (b - 48) else none

/-- Most-significant-first digit fold of integer parsing. -/
def parseDigitsAux : List Nat → Nat → Option Nat
  | [], acc => some acc
  | b :: bs, acc =>
    match digitVal b with
    | some d => parseDigitsAux bs (acc * 10 + d)
    | none => none

/-- Model of str::parse::<usize> on UTF-8 bytes: an optional leading plus
sign, then a nonempty run of ASCII digits, with the 64-bit overflow check
(checked at each step in Rust, equivalent to a final-value bound in base 10). -/
def parseUsize (bs : List Nat) : Option Nat :=
  let ds := if bs.head? = some 43 then bs.tail else bs
  if ds.isEmpty then none
  else
    match parseDigitsAux ds 0 with
    | some v => if v < 2 ^ 64 then some v else none
    | none => none

/-- Most-significant-first decimal digit bytes of n, with explicit fuel
(numAux n n computes the full numeral; numAux f 0 = []). -/
def numAux : Nat → Nat → List Nat
  | 0, _ => []
  | fuel + 1, n => if n = 0 then [] else numAux fuel (n / 10) ++ [n % 10 + 48]

/-- Decimal numeral bytes of n as Rust's Display prints it ("0" for zero). -/
def natNumeral (n : Nat) : List Nat := if n = 0 then [48] else numAux n n

/-- Zero-padding of the format specifier {:04}: pad the numeral on the left
with ASCII '0' up to width 4 (wider numerals pass through unchanged). -/
def pad4 (ds : List Nat) : List Nat := List.replicate (4 - ds.length) 48 ++ ds

/-- Model of photo_file_name: format "PICT{:04}.jpg" of the id, as bytes. -/
def photo_file_name (id : Nat) : List Nat := pictB ++ pad4 (natNumeral id) ++ jpgB

/-- A byte that is a UTF-8 continuation byte; a str index at such a byte is
not a character boundary and slicing there panics. -/
def isContByte (b : Nat) : Bool := decide (128 ≤ b ∧ b < 192)

/-- Strip leading ASCII '0' bytes, then parse (empty after stripping means
id 0) — the tail of photo_file_id after the slice. -/
def stripParse (m : List Nat) : Option Nat :=
  let stripped := m.dropWhile (fun b => b = 48)
  if stripped.isEmpty then some 0 else parseUsize stripped

/-- Model of photo_file_id.  Except Unit models the Rust panic that the byte
slice name[4..8] raises when byte 4 or byte 8 is not a character boundary
(positions are interior because the length is at least 12); .ok carries the
function's Option<usize> result. -/
def photo_file_id (name : List Nat) : Except Unit (Option Nat) :=
  if name.length < 12 then .ok none
  else if (name.map asciiUpper).take 4 ≠ pictB then .ok none
  else if (name.map asciiLower).drop (name.length - 4) ≠ jpgB then .ok none
  else if isContByte (name.getD 4 0) || isContByte (name.getD 8 0) then .error ()
  else .ok (stripParse ((name.drop 4).take 4))

/-- MoleMetrics; its three f32 fields are opaque bit patterns here (no claim
computes on them). -/
structure MoleMetrics where
  center_x : Nat
  center_y : Nat
  diameter : Nat
deriving DecidableEq, Repr

instance : Inhabited MoleMetrics := ⟨⟨0, 0, 0⟩⟩

/-- PhotoInfo: time is a SystemTime tick, notes the user text. -/
structure PhotoInfo where
  time : Nat
  notes : String
  mole_metrics : MoleMetrics
deriving DecidableEq, Repr

/-- PhotoInfo::new: the given time, empty notes, default metrics. -/
def PhotoInfo.new (time : Nat) : PhotoInfo :=
  { time := time, notes := "", mole_metrics := default }

/-- Photo: preview is the opaque RetainedImage handle (never inspected). -/
structure Photo where
  id : Nat
  bytes : List Nat
  preview : Nat
  info : PhotoInfo
deriving DecidableEq, Repr

/-- Visit-level metadata.  The Rust Default fills time with SystemTime::now;
load passes the ambient now explicitly (defaultInfo now). -/
structure PhotoSetInfo where
  name : String
  surname : String
  time : Nat
  notes : String
deriving DecidableEq, Repr

/-- Default PhotoSetInfo at ambient time now: empty strings, time = now. -/
def defaultInfo (now : Nat) : PhotoSetInfo :=
  { name := "", surname := "", time := now, notes := "" }

/-- PhotoSet: the directory path, the photos in scan order, visit info. -/
structure PhotoSet where
  path : String
  photos : List Photo
  info : PhotoSetInfo
deriving DecidableEq, Repr

/-- PhotoSetData, the sidecar transfer shape; the BTreeMap<usize, PhotoInfo>
is a key-sorted association list, iterated in ascending key order. -/
structure PhotoSetData where
  name : String
  surname : String
  time : Nat
  notes : String
  photos : List (Nat × PhotoInfo)
deriving DecidableEq, Repr

/-- BTreeMap::insert on a key-sorted association list: replaces the value at
an existing key, otherwise inserts at the sorted position. -/
def btreeInsert (k : Nat) (v : PhotoInfo) : List (Nat × PhotoInfo) → List (Nat × PhotoInfo)
  | [] => [(k, v)]
  | (k', v') :: rest =>
    if k < k' then (k, v) :: (k', v') :: rest
    else if k = k' then (k, v) :: rest
    else (k', v') :: btreeInsert k v rest

/-- Vec::get_mut(i) followed by a field update: modify the element at
position i when it exists, otherwise leave the list unchanged. -/
def updateAt (i : Nat) (f : Photo → Photo) : List Photo → List Photo
  | [] => []
  | x :: xs =>
    match i with
    | 0 => f x :: xs
    | n + 1 => x :: updateAt n f xs

/-- Model of PhotoSet::apply_data: overwrite the visit info wholesale, then
for each (id, info) sidecar pair overwrite time and notes of the photo at
VECTOR POSITION id (self.photos.get_mut(id)), when that position exists. -/
def PhotoSet.apply_data (s : PhotoSet) (data : PhotoSetData) : PhotoSet :=
  { s with
    info := { name := data.name, surname := data.surname,
              time := data.time, notes := data.notes },
    photos :=
      data.photos.foldl
        (fun ps p =>
          updateAt p.1
            (fun photo =>
              { photo with info := { photo.info with time := p.2.time, notes := p.2.notes } })
            ps)
        s.photos }

/-- Model of PhotoSet::build_data: copy the visit info and fold the photos
into a BTreeMap keyed by photo id (a later photo with the same id replaces
an earlier one's entry). -/
def PhotoSet.build_data (s : PhotoSet) : PhotoSetData :=
  { name := s.info.name, surname := s.info.surname,
    time := s.info.time, notes := s.info.notes,
    photos := s.photos.foldl (fun map photo => btreeInsert photo.id photo.info map) [] }

/-- DScopeError (src/errors.rs), with the carried path or file name; the
wrapped io/image/json error values are dropped as external. -/
inductive DScopeError where
  | noPhotosFound (path : String)
  | expectedDirectory (path : String)
  | cannotReadFile (file : String)
  | cannotWriteFile (file : String)
  | cannotDecodeImage (file : List Nat)
  | cannotCreateImage (file : String)
  | cannotDecodeInfo (file : String)
deriving DecidableEq, Repr

/-- Outcome of load: either a Rust panic (from the byte slice in
photo_file_id) or the function's Result. -/
inductive LoadErr where
  | panicked
  | err (e : DScopeError)
deriving DecidableEq, Repr

/-- One directory entry as the scan loop sees it: the (lossy-decoded) file
name bytes, whether the entry is a directory, whether it is a symlink that
does not resolve to a regular file, its modified time, and its contents. -/
structure DirEntry where
  name : List Nat
  isDir : Bool
  symlinkNonFile : Bool
  mtime : Nat
  bytes : List Nat
deriving DecidableEq, Repr

/-- The scan loop of PhotoSet::from_path over the directory entries, with
the image decoder as the external parameter decodeOk (metadata and byte
reads are modelled as succeeding; their I/O failure branches return
CannotReadFile in the source and are environment-driven).  Skips entries
whose name does not decode, directories, and symlinks to non-files;
propagates the photo_file_id panic; a surviving entry whose bytes fail image
decoding is fatal with CannotDecodeImage naming photo_file_name id. -/
def scanPhotos (decodeOk : List Nat → Bool) : List DirEntry → Except LoadErr (List Photo)
  | [] => .ok []
  | e :: rest =>
    match photo_file_id e.name with
    | .error _ => .error .panicked
    | .ok none => scanPhotos decodeOk rest
    | .ok (some id) =>
      if e.isDir then scanPhotos decodeOk rest
      else if e.symlinkNonFile then scanPhotos decodeOk rest
      else if decodeOk e.bytes then
        match scanPhotos decodeOk rest with
        | .error er => .error er
        | .ok photos =>
          .ok ({ id := id, bytes := e.bytes, preview := 0,
                 info := PhotoInfo.new e.mtime } :: photos)
      else .error (.err (.cannotDecodeImage (photo_file_name id)))

/-- Model of PhotoSet::from_path.  isDir says whether the path is a
directory; entries is the directory listing in scan order; sidecar is none
when no info.json exists, some (.error ()) when its text does not parse as
PhotoSetData, and some (.ok d) for a parsed sidecar; now is the ambient
SystemTime::now used by the default PhotoSetInfo. -/
def PhotoSet.from_path (decodeOk : List Nat → Bool) (path : String) (isDir : Bool)
    (entries : List DirEntry) (sidecar : Option (Except Unit PhotoSetData))
    (now : Nat) : Except LoadErr PhotoSet :=
  if !isDir then .error (.err (.expectedDirectory path))
  else
    match scanPhotos decodeOk entries with
    | .error er => .error er
    | .ok photos =>
      if photos.length = 0 then .error (.err (.noPhotosFound path))
      else
        let photo_set : PhotoSet := { path := path, photos := photos, info := defaultInfo now }
        match sidecar with
        | none => .ok photo_set
        | some (.error _) => .error (.err (.cannotDecodeInfo (path ++ "/info.json")))
        | some (.ok data) => .ok (photo_set.apply_data data)

/-- The flat filesystem under the set's path: file name bytes to contents. -/
def FileStore : Type := List Nat → Option (List Nat)

/-- std::fs::write at one name. -/
def fsWrite (fs : FileStore) (n : List Nat) (content : List Nat) : FileStore :=
  fun m => if m = n then some content else fs m

/-- Bytes of "info.json" (INFO_FILE_NAME). -/
def infoJsonB : List Nat := [105, 110, 102, 111, 46, 106, 115, 111, 110]

/-- Step 1 of PhotoSet::save: for each photo in order, write its bytes to
photo_file_name id only when no file of that name exists yet. -/
def writePhotoFiles : List Photo → FileStore → FileStore
  | [], fs => fs
  | p :: rest, fs =>
    let n := photo_file_name p.id
    writePhotoFiles rest (match fs n with
      | some _ => fs
      | none => fsWrite fs n p.bytes)

/-- Model of PhotoSet::save over the file store (writes are modelled as
succeeding; the CannotWriteFile branches are environment-driven).  The JSON
rendering of the built PhotoSetData is the external parameter serialize;
info.json is rewritten unconditionally. -/
def PhotoSet.save (s : PhotoSet) (serialize : PhotoSetData → List Nat)
    (fs : FileStore) : FileStore :=
  fsWrite (writePhotoFiles s.photos fs) infoJsonB (serialize s.build_data)

/-- The photo ids of the entries the scan loop keeps, in scan order: name
decodes, not a directory, not a symlink to a non-file, bytes decode. -/
def survivingIds (decodeOk : List Nat → Bool) : List DirEntry → List Nat
  | [] => []
  | e :: rest =>
    match photo_file_id e.name with
    | .ok (some id) =>
      if e.isDir then survivingIds decodeOk rest
      else if e.symlinkNonFile then survivingIds decodeOk rest
      else if decodeOk e.bytes then id :: survivingIds decodeOk rest
      else survivingIds decodeOk rest
    | _ => survivingIds decodeOk rest

/-- An entry the scan loop skips without producing a photo or an error:
its name yields no id, or it is a directory or a symlink to a non-file. -/
def entrySkipped (e : DirEntry) : Bool :=
  match photo_file_id e.name with
  | .ok none => true
  | .ok (some _) => e.isDir || e.symlinkNonFile
  | .error _ => false

/-- An entry the scan loop passes without aborting: skipped, or kept with
successfully decoding bytes. -/
def entryPassed (decodeOk : List Nat → Bool) (e : DirEntry) : Bool :=
  match photo_file_id e.name with
  | .ok none => true
  | .ok (some _) => e.isDir || e.symlinkNonFile || decodeOk e.bytes
  | .error _ => false

/-- The photo ids of a load result, when it succeeded. -/
def loadedIds (r : Except LoadErr PhotoSet) : Option (List Nat) :=
  match r with
  | .ok s => s.photos.map (fun p => p.id)
  | .error _ => none

/-- Sample photo with id 5 (a photo set holding only PICT0005.jpg). -/
def photoFive : Photo :=
  { id := 5, bytes := [1], preview := 0,
    info := { time := 0, notes := "orig", mole_metrics := default } }

/-- Sample set whose only photo has id 5, at vector position 0. -/
def setFive : PhotoSet := { path := "d", photos := [photoFive], info := defaultInfo 0 }

/-- Sidecar data addressing photo id 5. -/
def dataAtFive : PhotoSetData :=
  { name := "", surname := "", time := 0, notes := "",
    photos := [(5, { time := 9, notes := "new", mole_metrics := default })] }

/-- Sidecar data addressing photo id 0 (an id no photo of setFive has). -/
def dataAtZero : PhotoSetData :=
  { name := "", surname := "", time := 0, notes := "",
    photos := [(0, { time := 9, notes := "new", mole_metrics := default })] }

/-- Sample photo with id 5, edited time and notes. -/
def visitPhoto : Photo :=
  { id := 5, bytes := [1], preview := 0,
    info := { time := 7, notes := "hello", mole_metrics := default } }

/-- Sample in-memory set before save: one photo with id 5, edited metadata. -/
def visitSet : PhotoSet :=
  { path := "d",
    photos := [visitPhoto],
    info := { name := "A", surname := "B", time := 11, notes := "C" } }

/-- The set that loading a directory with the single entry entryUpperFive
and no sidecar produces. -/
def loadedA : PhotoSet :=
  { path := "d",
    photos := [{ id := 5, bytes := [1], preview := 0, info := PhotoInfo.new 1 }],
    info := defaultInfo 0 }

/-- The empty file store. -/
def fsEmpty : FileStore := fun _ => none

/-- The on-disk entry for PICT0005.jpg after save, as the next load scans
it (modified time 3). -/
def entryFive : DirEntry :=
  { name := photo_file_name 5, isDir := false, symlinkNonFile := false,
    mtime := 3, bytes := [1] }

/-- Directory entry named PICT0005.jpg. -/
def entryUpperFive : DirEntry :=
  { name := [80, 73, 67, 84, 48, 48, 48, 53, 46, 106, 112, 103],
    isDir := false, symlinkNonFile := false, mtime := 1, bytes := [1] }

/-- Directory entry named pict0005.JPG: a different file name decoding to
the same id 5. -/
def entryLowerFive : DirEntry :=
  { name := [112, 105, 99, 116, 48, 48, 48, 53, 46, 74, 80, 71],
    isDir := false, symlinkNonFile := false, mtime := 2, bytes := [2] }

/-- Directory entry that is itself a directory named like a photo file. -/
def entryDir : DirEntry :=
  { name := [80, 73, 67, 84, 48, 48, 48, 49, 46, 106, 112, 103],
    isDir := true, symlinkNonFile := false, mtime := 0, bytes := [] }

/-- Directory entry named pict00072.jpg: lower case and five digits, so the
literal name differs from the canonical photo_file_name 7. -/
def entryOddSeven : DirEntry :=
  { name := [112, 105, 99, 116, 48, 48, 48, 55, 50, 46, 106, 112, 103],
    isDir := false, symlinkNonFile := false, mtime := 4, bytes := [9] }

/-- Bytes of "PICT+123.jpg": a plus sign at position 4, then three digits. -/
def pictPlusName : List Nat := [80, 73, 67, 84, 43, 49, 50, 51, 46, 106, 112, 103]

/-- Bytes of "RICT0008.jpg" (wrong first letter). -/
def rictName : List Nat := [82, 73, 67, 84, 48, 48, 48, 56, 46, 106, 112, 103]

/-- Bytes of "PICT0008.jpj" (wrong last letter). -/
def pjpjName : List Nat := [80, 73, 67, 84, 48, 48, 48, 56, 46, 106, 112, 106]

/-- Bytes of "PICT000.jpg" (only eleven bytes, numeral field too short). -/
def shortName : List Nat := [80, 73, 67, 84, 48, 48, 48, 46, 106, 112, 103]

/-- Bytes of "PICT€€.jpg": the euro sign is the three UTF-8 bytes
226, 130, 172, so byte position 8 falls inside a character. -/
def euroName : List Nat := [80, 73, 67, 84, 226, 130, 172, 226, 130, 172, 46, 106, 112, 103]

/-- Sample serializer for the sidecar JSON (external collaborator). -/
def serZero : PhotoSetData → List Nat := fun _ => [0]

/-- Sample file store holding one unrelated file and the photo file of id
5, and nothing else. -/
def fsSample : FileStore :=
  fun n => if n = [99] then some [7] else if n = photo_file_name 5 then some [3] else none

lemma numAux_zero (fuel : Nat) : numAux fuel 0 = [] := by
  cases fuel <;> simp [numAux]

lemma numAux_succ (f n : Nat) (hn : n ≠ 0) :
    numAux (f + 1) n = numAux f (n / 10) ++ [n % 10 + 48] := by
  simp [numAux, hn]

lemma numAux_digits (fuel : Nat) : ∀ n b, b ∈ numAux fuel n → 48 ≤ b ∧ b ≤ 57 := by
  induction fuel with
  | zero => intro n b hb; simp [numAux] at hb
  | succ f ih =>
    intro n b hb
    by_cases hn : n = 0
    · simp [numAux, hn] at hb
    · simp [numAux, hn] at hb
      rcases hb with hb | hb
      · exact ih _ _ hb
      · have : n % 10 < 10 := Nat.mod_lt _ (by omega)
        omega

lemma numAux_head (fuel : Nat) : ∀ n, 1 ≤ n → n ≤ fuel →
    ∃ d t, numAux fuel n = d :: t ∧ 49 ≤ d ∧ d ≤ 57 := by
  induction fuel with
  | zero => intro n h1 h2; omega
  | succ f ih =>
    intro n h1 h2
    have hn : n ≠ 0 := by omega
    by_cases h10 : n < 10
    · have hdiv : n / 10 = 0 := Nat.div_eq_of_lt h10
      have hmod : n % 10 = n := Nat.mod_eq_of_lt h10
      refine ⟨n + 48, [], ?_, by omega, by omega⟩
      simp [numAux, hn, hdiv, hmod, numAux_zero]
    · have hdiv1 : 1 ≤ n / 10 := (Nat.le_div_iff_mul_le (by omega)).mpr (by omega)
      have hdivf : n / 10 ≤ f := by
        have := Nat.div_lt_self (by omega : 0 < n) (by omega : 1 < 10)
        omega
      obtain ⟨d, t, heq, hd1, hd2⟩ := ih (n / 10) hdiv1 hdivf
      exact ⟨d, t ++ [n % 10 + 48], by simp [numAux, hn, heq], hd1, hd2⟩

lemma parseDigitsAux_append (xs : List Nat) : ∀ ys acc,
    parseDigitsAux (xs ++ ys) acc =
      (parseDigitsAux xs acc).bind (fun v => parseDigitsAux ys v) := by
  induction xs with
  | nil => intro ys acc; simp [parseDigitsAux]
  | cons b bs ih =>
    intro ys acc
    simp only [List.cons_append, parseDigitsAux]
    cases hb : digitVal b with
    | none => simp
    | some d => simp [ih]

lemma parse_numAux (fuel : Nat) : ∀ n acc, 1 ≤ n → n ≤ fuel →
    parseDigitsAux (numAux fuel n) acc =
      some (acc * 10 ^ (numAux fuel n).length + n) := by
  induction fuel with
  | zero => intro n acc h1 h2; omega
  | succ f ih =>
    intro n acc h1 h2
    have hn : n ≠ 0 := by omega
    by_cases h10 : n < 10
    · have hdiv : n / 10 = 0 := Nat.div_eq_of_lt h10
      have hmod : n % 10 = n := Nat.mod_eq_of_lt h10
      have hdig : digitVal (n + 48) = some n := by
        simp [digitVal]; omega
      simp [numAux, hn, hdiv, hmod, numAux_zero, parseDigitsAux, hdig]
    · have hdiv1 : 1 ≤ n / 10 := (Nat.le_div_iff_mul_le (by omega)).mpr (by omega)
      have hdivf : n / 10 ≤ f := by
        have := Nat.div_lt_self (by omega : 0 < n) (by omega : 1 < 10)
        omega
      have hmod : n % 10 < 10 := Nat.mod_lt _ (by omega)
      have hdig : digitVal (n % 10 + 48) = some (n % 10) := by
        simp [digitVal]; omega
      have hrec := ih (n / 10) acc hdiv1 hdivf
      have hdm : 10 * (n / 10) + n % 10 = n := Nat.div_add_mod n 10
      rw [numAux_succ f n hn, parseDigitsAux_append, hrec]
      simp only [Option.some_bind, parseDigitsAux, hdig, List.length_append,
        List.length_cons, List.length_nil]
      congr 1
      generalize (numAux f (n / 10)).length = L
      have hpow : acc * 10 ^ (L + (0 + 1)) = acc * 10 ^ L * 10 := by ring
      rw [hpow]
      omega

lemma numAux_len_le (fuel : Nat) : ∀ n k, n ≤ fuel → n < 10 ^ k →
    (numAux fuel n).length ≤ k := by
  induction fuel with
  | zero => intro n k _ _; simp [numAux]
  | succ f ih =>
    intro n k h1 h2
    by_cases hn : n = 0
    · simp [numAux, hn]
    · cases k with
      | zero => simp at h2; omega
      | succ k' =>
        have hdivf : n / 10 ≤ f := by
          have := Nat.div_lt_self (by omega : 0 < n) (by omega : 1 < 10)
          omega
        have hdivk : n / 10 < 10 ^ k' := by
          rw [Nat.div_lt_iff_lt_mul (by omega)]
          calc n < 10 ^ (k' + 1) := h2
          _ = 10 ^ k' * 10 := by ring
        have := ih (n / 10) k' hdivf hdivk
        simp [numAux, hn]
        omega

lemma numAux_len_ge (fuel : Nat) : ∀ n k, n ≤ fuel → 10 ^ k ≤ n →
    k + 1 ≤ (numAux fuel n).length := by
  induction fuel with
  | zero =>
    intro n k h1 h2
    have : 1 ≤ 10 ^ k := Nat.one_le_pow _ _ (by omega)
    omega
  | succ f ih =>
    intro n k h1 h2
    have hpow1 : 1 ≤ 10 ^ k := Nat.one_le_pow _ _ (by omega)
    have hn : n ≠ 0 := by omega
    rw [numAux_succ f n hn]
    simp only [List.length_append, List.length_cons, List.length_nil]
    cases k with
    | zero => omega
    | succ k' =>
      have hdivf : n / 10 ≤ f := by
        have := Nat.div_lt_self (by omega : 0 < n) (by omega : 1 < 10)
        omega
      have hdivk : 10 ^ k' ≤ n / 10 := by
        rw [Nat.le_div_iff_mul_le (by omega)]
        calc 10 ^ k' * 10 = 10 ^ (k' + 1) := by ring
        _ ≤ n := h2
      have := ih (n / 10) k' hdivf hdivk
      omega

lemma dropWhile_zeros (k : Nat) (l : List Nat) :
    List.dropWhile (fun b => b = 48) (List.replicate k 48 ++ l) =
      List.dropWhile (fun b => b = 48) l := by
  induction k with
  | zero => simp
  | succ k' ih => simp [List.replicate_succ, List.dropWhile_cons, ih]

lemma natNumeral_digits (n : Nat) : ∀ b ∈ natNumeral n, 48 ≤ b ∧ b ≤ 57 := by
  intro b hb
  by_cases hn : n = 0
  · simp [natNumeral, hn] at hb
    omega
  · exact numAux_digits n n b (by simpa [natNumeral, hn] using hb)

lemma pad4_digits (n : Nat) : ∀ b ∈ pad4 (natNumeral n), 48 ≤ b ∧ b ≤ 57 := by
  intro b hb
  simp only [pad4, List.mem_append, List.mem_replicate] at hb
  rcases hb with ⟨_, rfl⟩ | hb
  · omega
  · exact natNumeral_digits n b hb

lemma natNumeral_len_le (n : Nat) (k : Nat) (h : n < 10 ^ k) (hk : k ≠ 0) :
    (natNumeral n).length ≤ k := by
  by_cases hn : n = 0
  · simp [natNumeral, hn]; omega
  · simpa [natNumeral, hn] using numAux_len_le n n k (le_refl n) h

lemma pad4_len_of_lt (n : Nat) (h : n < 10000) : (pad4 (natNumeral n)).length = 4 := by
  have hle : (natNumeral n).length ≤ 4 := natNumeral_len_le n 4 (by norm_num; omega) (by omega)
  simp only [pad4, List.length_append, List.length_replicate]
  omega

lemma stripParse_pad4 (n : Nat) (h : n < 10000) :
    stripParse (pad4 (natNumeral n)) = some n := by
  by_cases hn : n = 0
  · subst hn; decide
  · have h1 : 1 ≤ n := by omega
    obtain ⟨d, t, heq, hd1, hd2⟩ := numAux_head n n h1 (le_refl n)
    have hnum : natNumeral n = d :: t := by simpa [natNumeral, hn] using heq
    have hparse : parseDigitsAux (d :: t) 0 = some n := by
      have := parse_numAux n n 0 h1 (le_refl n)
      rw [heq] at this
      simpa using this
    simp only [stripParse, pad4, hnum, dropWhile_zeros, List.dropWhile_cons]
    have hd48 : (decide (d = 48)) = false := by
      apply decide_eq_false; omega
    simp only [hd48, Bool.false_eq_true, if_false, List.isEmpty_cons, parseUsize]
    have hd43 : List.head? (d :: t) ≠ some 43 := by
      simp; omega
    simp only [if_neg hd43, List.isEmpty_cons, hparse]
    rw [if_pos (show n < 2 ^ 64 by omega)]
    simp

lemma not_cont_of_small (b : Nat) (h : b < 128) : isContByte b = false := by
  simp [isContByte]; omega

lemma asciiLower_dot (b : Nat) (h : asciiLower b = 46) : b = 46 := by
  simp only [asciiLower] at h
  split at h <;> omega

lemma photo_file_id_split (p m s : List Nat)
    (hp : p.map asciiUpper = pictB) (hs : s.map asciiLower = jpgB)
    (hm : 4 ≤ m.length)
    (h4 : isContByte (m.getD 0 0) = false)
    (h8 : isContByte ((m ++ s).getD 4 0) = false) :
    photo_file_id (p ++ m ++ s) = .ok (stripParse (m.take 4)) := by
  have hpl : p.length = 4 := by simpa using congrArg List.length hp
  have hsl : s.length = 4 := by simpa using congrArg List.length hs
  rw [List.append_assoc]
  have hlen : (p ++ (m ++ s)).length = m.length + 8 := by
    simp only [List.length_append, hpl, hsl]
    omega
  have hpre : ((p ++ (m ++ s)).map asciiUpper).take 4 = pictB := by
    rw [List.map_append]
    rw [show (4 : Nat) = (p.map asciiUpper).length from by simp [hpl]]
    rw [List.take_left]
    exact hp
  have hsuf : ((p ++ (m ++ s)).map asciiLower).drop ((p ++ (m ++ s)).length - 4) = jpgB := by
    rw [hlen, List.map_append, List.map_append, List.drop_append_eq_append_drop]
    rw [List.drop_eq_nil_of_le (by simp only [List.length_map, hpl]; omega :
      (p.map asciiLower).length ≤ m.length + 8 - 4)]
    rw [List.nil_append, List.drop_append_eq_append_drop]
    rw [List.drop_eq_nil_of_le (by simp only [List.length_map, hpl]; omega :
      (m.map asciiLower).length ≤ m.length + 8 - 4 - (p.map asciiLower).length)]
    rw [List.nil_append]
    rw [show m.length + 8 - 4 - (p.map asciiLower).length - (m.map asciiLower).length = 0 from by
      simp only [List.length_map, hpl]; omega]
    rw [List.drop_zero]
    exact hs
  have hg4 : (p ++ (m ++ s)).getD 4 0 = m.getD 0 0 := by
    rw [List.getD_eq_getElem?_getD, List.getD_eq_getElem?_getD]
    rw [List.getElem?_append_right (by omega : p.length ≤ 4)]
    rw [show 4 - p.length = 0 from by omega]
    rw [List.getElem?_append_left (by omega : 0 < m.length)]
  have hg8 : (p ++ (m ++ s)).getD 8 0 = (m ++ s).getD 4 0 := by
    rw [List.getD_eq_getElem?_getD, List.getD_eq_getElem?_getD]
    rw [List.getElem?_append_right (by omega : p.length ≤ 8)]
    rw [show 8 - p.length = 4 from by omega]
  have hdrop : (p ++ (m ++ s)).drop 4 = m ++ s := by
    rw [show (4 : Nat) = p.length from hpl.symm]
    exact List.drop_left p (m ++ s)
  have htake : (m ++ s).take 4 = m.take 4 := by
    rw [List.take_append_eq_append_take]
    rw [show 4 - m.length = 0 from by omega]
    simp
  simp only [photo_file_id]
  rw [if_neg (show ¬ (p ++ (m ++ s)).length < 12 from by rw [hlen]; omega)]
  rw [if_neg (show ¬ ((p ++ (m ++ s)).map asciiUpper).take 4 ≠ pictB from by
    rw [hpre]
    exact fun hc => hc rfl)]
  rw [if_neg (show ¬ ((p ++ (m ++ s)).map asciiLower).drop ((p ++ (m ++ s)).length - 4) ≠ jpgB
    from by
    rw [hsuf]
    exact fun hc => hc rfl)]
  rw [if_neg (show ¬ (isContByte ((p ++ (m ++ s)).getD 4 0)
      || isContByte ((p ++ (m ++ s)).getD 8 0)) = true from by
    rw [hg4, hg8, h4, h8]
    exact Bool.false_ne_true)]
  rw [hdrop, htake]

lemma jpg_head_dot (s : List Nat) (hs : s.map asciiLower = jpgB) : s.getD 0 0 = 46 := by
  cases s with
  | nil => exact absurd hs (by decide)
  | cons a t =>
    have h1 : asciiLower a = 46 := by
      have := congrArg List.head? hs
      simpa [jpgB] using this
    show a = 46
    exact asciiLower_dot a h1

lemma pad4_head_not_cont (id : Nat) : isContByte ((pad4 (natNumeral id)).getD 0 0) = false := by
  cases hpm : pad4 (natNumeral id) with
  | nil =>
    have : (pad4 (natNumeral id)).length = 0 := by rw [hpm]; rfl
    simp only [pad4, List.length_append, List.length_replicate] at this
    have hnn : natNumeral id ≠ [] := by
      by_cases hz : id = 0
      · simp [natNumeral, hz]
      · have h1 : 1 ≤ id := by omega
        obtain ⟨d, t, heq, _, _⟩ := numAux_head id id h1 (le_refl id)
        simp [natNumeral, hz, heq]
    have := List.length_pos.mpr hnn
    omega
  | cons a t =>
    have ha : 48 ≤ a ∧ a ≤ 57 :=
      pad4_digits id a (by rw [hpm]; exact List.mem_cons_self a t)
    show isContByte a = false
    exact not_cont_of_small a (by omega)

/-- C5: codec round trip below 10000.  For every id < 10000 the decoder
recovers id from the canonical file name, and from every case permutation
of the PICT prefix and .jpg suffix around the same padded numeral (a
4-byte list p uppercasing to "PICT" and a 4-byte list s lowercasing to
".jpg" are exactly those case permutations). -/
theorem codec_roundtrip (id : Nat) (hid : id < 10000) :
    photo_file_id (photo_file_name id) = .ok (some id) ∧
    ∀ p s, p.map asciiUpper = pictB → s.map asciiLower = jpgB →
      photo_file_id (p ++ pad4 (natNumeral id) ++ s) = .ok (some id) := by
  have main : ∀ p s, p.map asciiUpper = pictB → s.map asciiLower = jpgB →
      photo_file_id (p ++ pad4 (natNumeral id) ++ s) = .ok (some id) := by
    intro p s hp hs
    have hm4 : (pad4 (natNumeral id)).length = 4 := pad4_len_of_lt id hid
    have h8 : isContByte ((pad4 (natNumeral id) ++ s).getD 4 0) = false := by
      have hgd : (pad4 (natNumeral id) ++ s).getD 4 0 = s.getD 0 0 := by
        rw [List.getD_eq_getElem?_getD, List.getD_eq_getElem?_getD]
        rw [List.getElem?_append_right (by omega : (pad4 (natNumeral id)).length ≤ 4)]
        rw [show 4 - (pad4 (natNumeral id)).length = 0 from by omega]
      rw [hgd, jpg_head_dot s hs]
      decide
    have := photo_file_id_split p (pad4 (natNumeral id)) s hp hs (by omega)
      (pad4_head_not_cont id) h8
    rw [this, List.take_of_length_le (by omega), stripParse_pad4 id hid]
  exact ⟨main pictB jpgB (by decide) (by decide), main⟩

/-- Witness for the C5 theorem at id 42, with the mixed casing
"pIcT0042.JpG" as the case-permutation instance. -/
theorem codec_roundtrip_witness :
    photo_file_id (photo_file_name 42) = .ok (some 42) ∧
    photo_file_id ([112, 73, 99, 84] ++ pad4 (natNumeral 42) ++ [46, 74, 112, 71]) =
      .ok (some 42) :=
  ⟨(codec_roundtrip 42 (by decide)).1,
   (codec_roundtrip 42 (by decide)).2 [112, 73, 99, 84] [46, 74, 112, 71]
     (by decide) (by decide)⟩

/-- C4 counterexample: the round trip fails at id 12345.  The encoder
emits "PICT12345.jpg" but the decoder reads only byte positions 4 through
8, so it returns 1234, not 12345. -/
theorem codec_breaks_at_12345 :
    photo_file_id (photo_file_name 12345) = .ok (some 1234) ∧ (1234 : Nat) ≠ 12345 := by
  decide

/-- C4 amended: for id ≥ 10000 the encoder widens the numeric field to the
full decimal numeral, but on a name with five or more digits the decoder
returns the value of the first four digits only (the bytes at positions
4 through 8), so the round trip does not return to ids ≥ 10000. -/
theorem widen_large_ids :
    (∀ id, 10000 ≤ id → photo_file_name id = pictB ++ natNumeral id ++ jpgB) ∧
    (∀ ds, (∀ b ∈ ds, 48 ≤ b ∧ b ≤ 57) → 5 ≤ ds.length →
      photo_file_id (pictB ++ ds ++ jpgB) = .ok (stripParse (ds.take 4))) := by
  constructor
  · intro id hid
    have hz : id ≠ 0 := by omega
    have hten : 10 ^ 4 ≤ id := by norm_num; omega
    have hlen : 5 ≤ (natNumeral id).length := by
      have := numAux_len_ge id id 4 (le_refl id) hten
      simpa [natNumeral, hz] using this
    show pictB ++ pad4 (natNumeral id) ++ jpgB = pictB ++ natNumeral id ++ jpgB
    rw [pad4, show 4 - (natNumeral id).length = 0 from by omega]
    simp
  · intro ds hd hlen
    have h4 : isContByte (ds.getD 0 0) = false := by
      cases ds with
      | nil => simp at hlen
      | cons a t =>
        have := hd a (List.mem_cons_self a t)
        show isContByte a = false
        exact not_cont_of_small a (by omega)
    have h8 : isContByte ((ds ++ jpgB).getD 4 0) = false := by
      have h4lt : 4 < ds.length := by omega
      have hgd : (ds ++ jpgB).getD 4 0 = ds.getD 4 0 := by
        rw [List.getD_eq_getElem?_getD, List.getD_eq_getElem?_getD,
          List.getElem?_append_left h4lt]
      rw [hgd]
      have hmem : ds.getD 4 0 ∈ ds := by
        rw [List.getD_eq_getElem?_getD, List.getElem?_eq_getElem h4lt]
        exact List.getElem_mem h4lt
      have := hd _ hmem
      exact not_cont_of_small _ (by omega)
    exact photo_file_id_split pictB ds jpgB (by decide) (by decide) (by omega) h4 h8

/-- Witness for the C4 amended theorem: the widened name of id 10000,
and the decode of "PICT12345.jpg" built from the digit list. -/
theorem widen_large_ids_witness :
    photo_file_name 10000 = pictB ++ natNumeral 10000 ++ jpgB ∧
    photo_file_id (pictB ++ [49, 50, 51, 52, 53] ++ jpgB) =
      .ok (stripParse ([49, 50, 51, 52, 53].take 4)) :=
  ⟨widen_large_ids.1 10000 (by decide),
   widen_large_ids.2 [49, 50, 51, 52, 53] (by decide) (by decide)⟩

/-- C9 counterexample: "PICT+123.jpg" has a non-digit (the plus sign,
byte 43) at position 4, so it fails the acceptance conditions as the claim
states them, yet photo_file_id returns Some 123 because Rust's usize
parser accepts a leading plus sign. -/
theorem plus_sign_accepted :
    photo_file_id pictPlusName = .ok (some 123) ∧ digitVal 43 = none := by
  decide

/-- C9 amended: whenever photo_file_id returns an identifier, the length,
prefix and suffix conditions hold and the bytes at positions 4 through 8
parse after zero-stripping (Rust's parser also accepts a single leading
plus sign there); names failing the conditions return None or abort, and
the three listed examples return None. -/
theorem decode_acceptance :
    (∀ nm r, photo_file_id nm = .ok (some r) →
      12 ≤ nm.length ∧ (nm.map asciiUpper).take 4 = pictB ∧
      (nm.map asciiLower).drop (nm.length - 4) = jpgB ∧
      stripParse ((nm.drop 4).take 4) = some r) ∧
    photo_file_id rictName = .ok none ∧
    photo_file_id pjpjName = .ok none ∧
    photo_file_id shortName = .ok none := by
  refine ⟨?_, by decide, by decide, by decide⟩
  intro nm r h
  simp only [photo_file_id] at h
  by_cases h1 : nm.length < 12
  · rw [if_pos h1] at h
    simp at h
  rw [if_neg h1] at h
  by_cases h2 : (nm.map asciiUpper).take 4 ≠ pictB
  · rw [if_pos h2] at h
    simp at h
  rw [if_neg h2] at h
  by_cases h3 : (nm.map asciiLower).drop (nm.length - 4) ≠ jpgB
  · rw [if_pos h3] at h
    simp at h
  rw [if_neg h3] at h
  by_cases h4 : (isContByte (nm.getD 4 0) || isContByte (nm.getD 8 0)) = true
  · rw [if_pos h4] at h
    simp at h
  rw [if_neg h4] at h
  have h5 : stripParse ((nm.drop 4).take 4) = some r := by
    injection h
  exact ⟨by omega, not_not.mp h2, not_not.mp h3, h5⟩

/-- Witness for the C9 amended theorem at the accepted name
"PICT0007.jpg". -/
theorem decode_acceptance_witness :
    12 ≤ (photo_file_name 7).length ∧
    ((photo_file_name 7).map asciiUpper).take 4 = pictB ∧
    ((photo_file_name 7).map asciiLower).drop ((photo_file_name 7).length - 4) = jpgB ∧
    stripParse (((photo_file_name 7).drop 4).take 4) = some 7 :=
  decode_acceptance.1 (photo_file_name 7) 7 (by decide)

/-- C10: photo_file_id is not total.  On "PICT€€.jpg" the length, prefix
and suffix checks all pass, but byte position 8 falls inside the second
euro sign, so the byte slice name[4..8] aborts instead of returning an
Option (modelled as the .error outcome). -/
theorem photo_file_id_aborts : photo_file_id euroName = .error () := by
  decide

/-- C1: apply_data addresses photos by vector position, not by Photo.id.
On a set whose only photo has id 5 (at position 0), the sidecar entry for
id 5 changes nothing, while the sidecar entry for id 0 — an id no photo
has — overwrites the id-5 photo's time and notes. -/
theorem apply_data_by_position :
    (setFive.apply_data dataAtFive).photos.map (fun p => (p.id, p.info.time, p.info.notes)) =
      [(5, 0, "orig")] ∧
    (setFive.apply_data dataAtZero).photos.map (fun p => (p.id, p.info.time, p.info.notes)) =
      [(5, 9, "new")] := by
  decide

/-- C2: the metadata round trip fails for a set whose photo ids are not
the vector positions.  Saving visitSet (one photo, id 5, time 7, notes
"hello") and loading the directory back merges build_data through the
positional lookup, which misses, so the loaded photo keeps its file
defaults (mtime 3, empty notes); the visit-level info does round-trip. -/
theorem save_load_loses_photo_info :
    PhotoSet.from_path (fun _ => true) "d" true [entryFive] (some (.ok visitSet.build_data)) 99 =
      .ok { path := "d",
            photos := [{ id := 5, bytes := [1], preview := 0,
                         info := { time := 3, notes := "", mole_metrics := default } }],
            info := { name := "A", surname := "B", time := 11, notes := "C" } } ∧
    visitSet.photos.map (fun p => (p.id, p.info.time, p.info.notes)) = [(5, 7, "hello")] := by
  decide

lemma scanPhotos_ids (decodeOk : List Nat → Bool) : ∀ entries l,
    scanPhotos decodeOk entries = .ok l →
    l.map (fun p => p.id) = survivingIds decodeOk entries := by
  intro entries
  induction entries with
  | nil =>
    intro l h
    simp only [scanPhotos] at h
    injection h with h'
    subst h'
    rfl
  | cons e rest ih =>
    intro l h
    simp only [scanPhotos] at h
    cases hid : photo_file_id e.name with
    | error u =>
      simp only [hid] at h
      cases h
    | ok o =>
      cases o with
      | none =>
        simp only [hid] at h
        simp only [survivingIds, hid]
        exact ih l h
      | some id =>
        simp only [hid] at h
        simp only [survivingIds, hid]
        by_cases hd : e.isDir = true
        · rw [if_pos hd] at h ⊢
          exact ih l h
        rw [if_neg hd] at h ⊢
        by_cases hsym : e.symlinkNonFile = true
        · rw [if_pos hsym] at h ⊢
          exact ih l h
        rw [if_neg hsym] at h ⊢
        by_cases hdec : decodeOk e.bytes = true
        · rw [if_pos hdec] at h ⊢
          cases hscan : scanPhotos decodeOk rest with
          | error er =>
            simp only [hscan] at h
            cases h
          | ok photos =>
            simp only [hscan] at h
            injection h with h'
            subst h'
            simp only [List.map_cons]
            rw [ih photos hscan]
        · rw [if_neg hdec] at h
          cases h

lemma updateAt_map_id (g : Photo → Photo) (hg : ∀ x, (g x).id = x.id) :
    ∀ (i : Nat) (l : List Photo),
      (updateAt i g l).map (fun p => p.id) = l.map (fun p => p.id) := by
  intro i l
  induction l generalizing i with
  | nil => cases i <;> rfl
  | cons x xs ih =>
    cases i with
    | zero => simp [updateAt, hg]
    | succ n => simp [updateAt, ih]

lemma foldl_update_map_id : ∀ (entries : List (Nat × PhotoInfo)) (ps : List Photo),
    (entries.foldl
      (fun ps p =>
        updateAt p.1
          (fun photo =>
            { photo with info := { photo.info with time := p.2.time, notes := p.2.notes } })
          ps)
      ps).map (fun p => p.id) = ps.map (fun p => p.id) := by
  intro entries
  induction entries with
  | nil => intro ps; rfl
  | cons q qs ih =>
    intro ps
    simp only [List.foldl_cons]
    rw [ih]
    exact updateAt_map_id
      (fun photo =>
        { photo with info := { photo.info with time := q.2.time, notes := q.2.notes } })
      (fun x => rfl) q.1 ps

lemma apply_data_ids (s : PhotoSet) (d : PhotoSetData) :
    (s.apply_data d).photos.map (fun p => p.id) = s.photos.map (fun p => p.id) :=
  foldl_update_map_id d.photos s.photos

lemma from_path_ok_shape (decodeOk : List Nat → Bool) (path : String) (isDir : Bool)
    (entries : List DirEntry) (sidecar : Option (Except Unit PhotoSetData)) (now : Nat)
    (ps : PhotoSet)
    (h : PhotoSet.from_path decodeOk path isDir entries sidecar now = .ok ps) :
    ps.photos.map (fun p => p.id) = survivingIds decodeOk entries ∧ ps.photos ≠ [] := by
  unfold PhotoSet.from_path at h
  cases isDir with
  | false => simp at h
  | true =>
    simp only [Bool.not_true] at h
    rw [if_neg (by simp : ¬ (false = true))] at h
    cases hscan : scanPhotos decodeOk entries with
    | error er =>
      simp only [hscan] at h
      cases h
    | ok photos =>
      simp only [hscan] at h
      by_cases hlen : photos.length = 0
      · rw [if_pos hlen] at h
        cases h
      rw [if_neg hlen] at h
      have hids := scanPhotos_ids decodeOk entries photos hscan
      have hne : photos ≠ [] := by
        intro hc
        subst hc
        exact hlen rfl
      cases sidecar with
      | none =>
        injection h with h'
        subst h'
        exact ⟨hids, hne⟩
      | some exc =>
        cases exc with
        | error u => cases h
        | ok data =>
          injection h with h'
          subst h'
          constructor
          · rw [apply_data_ids]
            exact hids
          · intro hc
            have hmap :=
              apply_data_ids { path := path, photos := photos, info := defaultInfo now } data
            rw [hc] at hmap
            have hnil : photos = [] := by
              have hmap' : photos.map (fun p => p.id) = [] := hmap.symm
              exact List.map_eq_nil_iff.mp hmap'
            exact hne hnil

lemma scanPhotos_all_skipped (decodeOk : List Nat → Bool) : ∀ entries,
    (∀ e ∈ entries, entrySkipped e = true) →
    scanPhotos decodeOk entries = .ok [] := by
  intro entries
  induction entries with
  | nil => intro _; rfl
  | cons e rest ih =>
    intro h
    have he := h e (List.mem_cons_self e rest)
    have hrest : ∀ e' ∈ rest, entrySkipped e' = true :=
      fun e' he' => h e' (List.mem_cons_of_mem e he')
    simp only [scanPhotos]
    cases hid : photo_file_id e.name with
    | error u =>
      simp only [entrySkipped, hid] at he
      exact Bool.noConfusion he
    | ok o =>
      cases o with
      | none =>
        simp only [hid]
        exact ih hrest
      | some id =>
        simp only [entrySkipped, hid] at he
        simp only [hid]
        by_cases hd : e.isDir = true
        · rw [if_pos hd]
          exact ih hrest
        rw [if_neg hd]
        have hsym : e.symlinkNonFile = true := by
          rcases Bool.or_eq_true_iff.mp he with hx | hx
          · exact absurd hx hd
          · exact hx
        rw [if_pos hsym]
        exact ih hrest

lemma scanPhotos_append_error (decodeOk : List Nat → Bool) : ∀ pre l er,
    (∀ e ∈ pre, entryPassed decodeOk e = true) →
    scanPhotos decodeOk l = .error er →
    scanPhotos decodeOk (pre ++ l) = .error er := by
  intro pre
  induction pre with
  | nil => intro l er _ hl; simpa using hl
  | cons e rest ih =>
    intro l er hp hl
    have he := hp e (List.mem_cons_self e rest)
    have hrest : ∀ e' ∈ rest, entryPassed decodeOk e' = true :=
      fun e' he' => hp e' (List.mem_cons_of_mem e he')
    simp only [List.cons_append, scanPhotos]
    cases hid : photo_file_id e.name with
    | error u =>
      simp only [entryPassed, hid] at he
      exact Bool.noConfusion he
    | ok o =>
      cases o with
      | none =>
        simp only [hid]
        exact ih l er hrest hl
      | some id =>
        simp only [entryPassed, hid] at he
        simp only [hid]
        by_cases hd : e.isDir = true
        · rw [if_pos hd]
          exact ih l er hrest hl
        rw [if_neg hd]
        by_cases hsym : e.symlinkNonFile = true
        · rw [if_pos hsym]
          exact ih l er hrest hl
        rw [if_neg hsym]
        have hdec : decodeOk e.bytes = true := by
          rcases Bool.or_eq_true_iff.mp he with hx | hx
          · rcases Bool.or_eq_true_iff.mp hx with hy | hy
            · exact absurd hy hd
            · exact absurd hy hsym
          · exact hx
        rw [if_pos hdec]
        simp only [List.append_eq, ih l er hrest hl]

lemma scanPhotos_decode_fail (decodeOk : List Nat → Bool) (e : DirEntry) (id : Nat)
    (rest : List DirEntry)
    (hid : photo_file_id e.name = .ok (some id)) (hdir : e.isDir = false)
    (hsym : e.symlinkNonFile = false) (hdec : decodeOk e.bytes = false) :
    scanPhotos decodeOk (e :: rest) =
      .error (.err (.cannotDecodeImage (photo_file_name id))) := by
  simp only [scanPhotos, hid, hdir, hsym, hdec]
  simp

/-- C3 counterexample: a directory holding "PICT0005.jpg" and
"pict0005.JPG" — two differently-cased names both decoding to id 5 —
loads successfully into a set whose photo ids are [5, 5], which are not
pairwise distinct: no dedup happens. -/
theorem load_keeps_duplicate_ids :
    loadedIds (PhotoSet.from_path (fun _ => true) "d" true
      [entryUpperFive, entryLowerFive] none 0) = some [5, 5] ∧
    ¬ ([5, 5] : List Nat).Pairwise (fun a b => a ≠ b) := by
  constructor
  · decide
  · intro hp
    rcases List.pairwise_cons.mp hp with ⟨h5, _⟩
    exact h5 5 (List.mem_singleton.mpr rfl) rfl

/-- C3 amended: a successfully loaded PhotoSet has exactly one photo per
surviving directory entry, its ids the decoded identifiers in scan order;
they are pairwise distinct precisely when those decoded ids are, and two
differently-cased names decoding to the same id therefore yield duplicate
ids (the sidecar merge never changes ids). -/
theorem from_path_ids (decodeOk : List Nat → Bool) (path : String) (isDir : Bool)
    (entries : List DirEntry) (sidecar : Option (Except Unit PhotoSetData)) (now : Nat)
    (ps : PhotoSet)
    (h : PhotoSet.from_path decodeOk path isDir entries sidecar now = .ok ps) :
    ps.photos.map (fun p => p.id) = survivingIds decodeOk entries ∧
    ((survivingIds decodeOk entries).Pairwise (fun a b => a ≠ b) →
      (ps.photos.map (fun p => p.id)).Pairwise (fun a b => a ≠ b)) := by
  have hshape := from_path_ok_shape decodeOk path isDir entries sidecar now ps h
  exact ⟨hshape.1, fun hp => hshape.1 ▸ hp⟩

/-- Witness for the C3 amended theorem on a one-entry directory. -/
theorem from_path_ids_witness :
    loadedA.photos.map (fun p => p.id) = survivingIds (fun _ => true) [entryUpperFive] ∧
    ((survivingIds (fun _ => true) [entryUpperFive]).Pairwise (fun a b => a ≠ b) →
      (loadedA.photos.map (fun p => p.id)).Pairwise (fun a b => a ≠ b)) :=
  from_path_ids (fun _ => true) "d" true [entryUpperFive] none 0 loadedA (by decide)

/-- C7: when every directory entry is skipped by the scan (no entry both
decodes to an id and is a plain file), load fails with NoPhotosFound
carrying the directory path; and in general a successful load never holds
an empty photos list. -/
theorem empty_scan_error :
    (∀ (decodeOk : List Nat → Bool) (path : String) entries sidecar now,
      (∀ e ∈ entries, entrySkipped e = true) →
      PhotoSet.from_path decodeOk path true entries sidecar now =
        .error (.err (.noPhotosFound path))) ∧
    (∀ (decodeOk : List Nat → Bool) (path : String) isDir entries sidecar now ps,
      PhotoSet.from_path decodeOk path isDir entries sidecar now = .ok ps →
      ps.photos ≠ []) := by
  constructor
  · intro decodeOk path entries sidecar now hskip
    have hscan := scanPhotos_all_skipped decodeOk entries hskip
    simp [PhotoSet.from_path, hscan]
  · intro decodeOk path isDir entries sidecar now ps h
    exact (from_path_ok_shape decodeOk path isDir entries sidecar now ps h).2

/-- Witness for C7: a directory whose only entry is itself a directory
named like a photo file, and a successful one-photo load. -/
theorem empty_scan_error_witness :
    PhotoSet.from_path (fun _ => true) "d" true [entryDir] none 0 =
      .error (.err (.noPhotosFound "d")) ∧
    loadedA.photos ≠ [] :=
  ⟨empty_scan_error.1 (fun _ => true) "d" [entryDir] none 0 (by decide),
   empty_scan_error.2 (fun _ => true) "d" true [entryUpperFive] none 0 loadedA (by decide)⟩

/-- C8: when the scan reaches an entry whose name decodes to id but whose
bytes fail image decoding (all earlier entries passing), load fails with
CannotDecodeImage carrying the canonical photo_file_name id, regardless of
the literal on-disk name's casing or digit count. -/
theorem decode_error_canonical (decodeOk : List Nat → Bool) (path : String)
    (entries pre rest : List DirEntry) (e : DirEntry) (id : Nat)
    (sidecar : Option (Except Unit PhotoSetData)) (now : Nat)
    (hsplit : entries = pre ++ e :: rest)
    (hpre : ∀ e' ∈ pre, entryPassed decodeOk e' = true)
    (hid : photo_file_id e.name = .ok (some id))
    (hdir : e.isDir = false) (hsym : e.symlinkNonFile = false)
    (hdec : decodeOk e.bytes = false) :
    PhotoSet.from_path decodeOk path true entries sidecar now =
      .error (.err (.cannotDecodeImage (photo_file_name id))) := by
  subst hsplit
  have hscan := scanPhotos_append_error decodeOk pre (e :: rest) _ hpre
    (scanPhotos_decode_fail decodeOk e id rest hid hdir hsym hdec)
  simp [PhotoSet.from_path, hscan]

/-- Witness for C8: the single on-disk name "pict00072.jpg" (lower case,
five digits) fails image decoding; the error names "PICT0007.jpg". -/
theorem decode_error_canonical_witness :
    PhotoSet.from_path (fun _ => false) "d" true [entryOddSeven] none 0 =
      .error (.err (.cannotDecodeImage (photo_file_name 7))) :=
  decode_error_canonical (fun _ => false) "d" [entryOddSeven] [] [] entryOddSeven 7 none 0
    rfl (by simp) (by decide) rfl rfl rfl

lemma photo_file_name_ne_info (i : Nat) : photo_file_name i ≠ infoJsonB := by
  intro hc
  have hlen := congrArg List.length hc
  simp only [photo_file_name, pad4, infoJsonB, jpgB, pictB, List.length_append,
    List.length_replicate, List.length_cons, List.length_nil] at hlen
  omega

lemma writePhotoFiles_existing : ∀ (photos : List Photo) (fs : FileStore) (n : List Nat),
    (fs n).isSome = true → writePhotoFiles photos fs n = fs n := by
  intro photos
  induction photos with
  | nil => intro fs n _; rfl
  | cons p rest ih =>
    intro fs n h
    simp only [writePhotoFiles]
    cases hx : fs (photo_file_name p.id) with
    | some c =>
      simp only [hx]
      exact ih fs n h
    | none =>
      simp only [hx]
      have h' : ((fsWrite fs (photo_file_name p.id) p.bytes) n).isSome = true := by
        simp only [fsWrite]
        by_cases he : n = photo_file_name p.id
        · rw [if_pos he]
          rfl
        · rw [if_neg he]
          exact h
      have heq : (fsWrite fs (photo_file_name p.id) p.bytes) n = fs n := by
        simp only [fsWrite]
        by_cases he : n = photo_file_name p.id
        · subst he
          rw [hx] at h
          exact Bool.noConfusion h
        · rw [if_neg he]
      rw [ih _ n h', heq]

lemma writePhotoFiles_fresh : ∀ (photos : List Photo) (fs : FileStore) (p : Photo),
    p ∈ photos → fs (photo_file_name p.id) = none →
    ∃ q ∈ photos, photo_file_name q.id = photo_file_name p.id ∧
      writePhotoFiles photos fs (photo_file_name p.id) = some q.bytes := by
  intro photos
  induction photos with
  | nil =>
    intro fs p hp
    exact absurd hp (List.not_mem_nil p)
  | cons q rest ih =>
    intro fs p hp hnone
    simp only [writePhotoFiles]
    by_cases hname : photo_file_name q.id = photo_file_name p.id
    · have hq : fs (photo_file_name q.id) = none := by rw [hname]; exact hnone
      simp only [hq]
      refine ⟨q, List.mem_cons_self q rest, hname, ?_⟩
      have hsome : ((fsWrite fs (photo_file_name q.id) q.bytes) (photo_file_name p.id)).isSome
          = true := by
        simp only [fsWrite]
        rw [if_pos hname.symm]
        rfl
      rw [writePhotoFiles_existing rest _ _ hsome]
      simp only [fsWrite]
      rw [if_pos hname.symm]
    · rcases List.mem_cons.mp hp with hpq | hp'
      · subst hpq
        exact absurd rfl hname
      · cases hx : fs (photo_file_name q.id) with
        | some c =>
          simp only [hx]
          exact (ih fs p hp' hnone).imp fun r hr =>
            ⟨List.mem_cons_of_mem q hr.1, hr.2⟩
        | none =>
          simp only [hx]
          have hnone' : (fsWrite fs (photo_file_name q.id) q.bytes) (photo_file_name p.id)
              = none := by
            simp only [fsWrite]
            rw [if_neg (fun hc => hname hc.symm)]
            exact hnone
          exact (ih _ p hp' hnone').imp fun r hr =>
            ⟨List.mem_cons_of_mem q hr.1, hr.2⟩

/-- C6: save is write-once for photo bytes.  Every file that already
exists and is not info.json keeps its exact contents across save; the
info.json file is rewritten unconditionally to the serialized build_data;
and a photo whose canonical file is absent gets some same-named photo's
byte payload written there. -/
theorem save_write_once (s : PhotoSet) (serialize : PhotoSetData → List Nat) (fs : FileStore) :
    (∀ n, n ≠ infoJsonB → (fs n).isSome = true → PhotoSet.save s serialize fs n = fs n) ∧
    PhotoSet.save s serialize fs infoJsonB = some (serialize s.build_data) ∧
    (∀ p ∈ s.photos, fs (photo_file_name p.id) = none →
      ∃ q ∈ s.photos, photo_file_name q.id = photo_file_name p.id ∧
        PhotoSet.save s serialize fs (photo_file_name p.id) = some q.bytes) := by
  refine ⟨?_, ?_, ?_⟩
  · intro n hn hsome
    simp only [PhotoSet.save, fsWrite]
    rw [if_neg hn]
    exact writePhotoFiles_existing s.photos fs n hsome
  · simp [PhotoSet.save, fsWrite]
  · intro p hp hnone
    refine (writePhotoFiles_fresh s.photos fs p hp hnone).imp fun q hq => ⟨hq.1, hq.2.1, ?_⟩
    simp only [PhotoSet.save, fsWrite]
    rw [if_neg (photo_file_name_ne_info p.id)]
    exact hq.2.2

/-- Witness for C6 on visitSet: an unrelated existing file survives save
over fsSample, and the absent photo file is created over the empty store. -/
theorem save_write_once_witness :
    PhotoSet.save visitSet serZero fsSample [99] = fsSample [99] ∧
    (∃ q ∈ visitSet.photos, photo_file_name q.id = photo_file_name visitPhoto.id ∧
      PhotoSet.save visitSet serZero fsEmpty (photo_file_name visitPhoto.id) = some q.bytes) :=
  ⟨(save_write_once visitSet serZero fsSample).1 [99] (by decide) (by decide),
   (save_write_once visitSet serZero fsEmpty).2.2 visitPhoto (by decide) rfl⟩
